import Mathlib

/-!
Verification of the LC574AL data-grabber core: a shallow embedding of
`src/lc574alDataGrabber.py` — the transport framing in `ask`, the
scientific-number grammar shared by `genTimeArrays` and `genTraceArrays`,
trigger-time parsing and time-axis construction in `genTimeArrays`, the
segment-sample grammar of `genTraceArrays`, and the dataset assembly code of
`dataGrabber` — together with theorems settling the frozen claims.

Conventions: byte streams and Python strings are `List Char`.  The serial
device in `ask` is modelled as the list of single-byte reads it will deliver
(`serial.read()` with default size 1; once the list is exhausted every further
read delivers nothing, as `serial.read` does with `timeout=0`).  Numeric
values are exact rationals `ℚ` (the embedding of Python `float(...)` applied
to the instrument's decimal literals; IEEE rounding is not modelled, the
literals of interest are exactly representable).  Python exceptions are an
explicit `PyErr` value.
-/

namespace LC574

/-- Boolean test that `p` is a leading run of `s` (Python `str.startswith`,
and the per-position step of `re.search` on a literal pattern). -/
def isPre : List Char → List Char → Bool
  | [], _ => true
  | _ :: _, [] => false
  | a :: p, b :: s => a == b && isPre p s

/-- Boolean test that `pat` occurs contiguously somewhere in `s`
(Python `pat in s`; `re.search` with a literal pattern). -/
def hasSub (pat : List Char) : List Char → Bool
  | [] => pat.isEmpty
  | s@(_ :: rest) => isPre pat s || hasSub pat rest

/-- Python `s.split(pat)[0]` for a non-empty `pat`: the text before the first
occurrence of `pat`, or all of `s` when `pat` does not occur. -/
def splitHead (pat : List Char) : List Char → List Char
  | [] => []
  | c :: rest => if isPre pat (c :: rest) then [] else c :: splitHead pat rest

/-- The token `ask` searches a completed line for:
`re.search("\*STB", line)` at `src/lc574alDataGrabber.py:109`. -/
def stbTok : List Char := ['*', 'S', 'T', 'B']

/-- The separator `ask` splits the final line on:
`line.split(";*STB")` at `src/lc574alDataGrabber.py:110`. -/
def stbSep : List Char := [';', '*', 'S', 'T', 'B']

/-- Read loop of `ask` (`src/lc574alDataGrabber.py:104-115`), one serial read
per step.  A read delivers the next byte of the stream, or nothing once the
stream is exhausted.  A line is complete when the read byte is a newline; the
loop then either returns (the accumulated line mentions `*STB`, and the text
before the first `;*STB` is appended) or appends the whole line to the
accumulated text, resets the line buffer and goes on.  `fuel` bounds the
number of loop iterations we unfold; `none` means the loop is still running
after `fuel` reads — the Python loop itself has no bound of any kind. -/
def askLoop : List Char → List Char → List Char → Nat → Option (List Char)
  | _, _, _, 0 => none
  | [], line, txt, fuel + 1 => askLoop [] line txt fuel
  | c :: rest, line, txt, fuel + 1 =>
    let line2 := line ++ [c]
    if c = '\n' then
      if hasSub stbTok line2 then some (txt ++ splitHead stbSep line2)
      else askLoop rest [] (txt ++ line2) fuel
    else askLoop rest line2 txt fuel

/-- `ask` (`src/lc574alDataGrabber.py:87-118`) viewed from the read side:
the response text the loop returns on the given byte stream, within `fuel`
loop iterations (the write of the request and the final `flushInput` do not
affect the returned text). -/
def ask (stream : List Char) (fuel : Nat) : Option (List Char) :=
  askLoop stream [] [] fuel

/-- The byte stream formed by the given lines, each terminated by a newline. -/
def linesJoin : List (List Char) → List Char
  | [] => []
  | l :: ls => l ++ '\n' :: linesJoin ls

lemma askLoop_zero (s line txt : List Char) : askLoop s line txt 0 = none := by
  cases s <;> rfl

lemma askLoop_nil (line txt : List Char) (fuel : Nat) :
    askLoop [] line txt (fuel + 1) = askLoop [] line txt fuel := rfl

lemma askLoop_cons (c : Char) (rest line txt : List Char) (fuel : Nat) :
    askLoop (c :: rest) line txt (fuel + 1) =
      if c = '\n' then
        if hasSub stbTok (line ++ [c]) = true then some (txt ++ splitHead stbSep (line ++ [c]))
        else askLoop rest [] (txt ++ (line ++ [c])) fuel
      else askLoop rest (line ++ [c]) txt fuel := rfl

lemma askLoop_newline_stop (rest line txt : List Char) (fuel : Nat)
    (h : hasSub stbTok (line ++ ['\n']) = true) :
    askLoop ('\n' :: rest) line txt (fuel + 1) =
      some (txt ++ splitHead stbSep (line ++ ['\n'])) := by
  rw [askLoop_cons, if_pos rfl, if_pos h]

lemma askLoop_newline_go (rest line txt : List Char) (fuel : Nat)
    (h : hasSub stbTok (line ++ ['\n']) = false) :
    askLoop ('\n' :: rest) line txt (fuel + 1) =
      askLoop rest [] (txt ++ (line ++ ['\n'])) fuel := by
  rw [askLoop_cons, if_pos rfl, if_neg (by simp [h])]

lemma askLoop_other (c : Char) (rest line txt : List Char) (fuel : Nat) (h : c ≠ '\n') :
    askLoop (c :: rest) line txt (fuel + 1) = askLoop rest (line ++ [c]) txt fuel := by
  rw [askLoop_cons, if_neg h]

lemma isPre_self_append (p r : List Char) : isPre p (p ++ r) = true := by
  induction p with
  | nil => rfl
  | cons a p ih => simp [isPre, ih]

lemma isPre_append_mono {p : List Char} :
    ∀ {s : List Char} (y : List Char), isPre p s = true → isPre p (s ++ y) = true := by
  induction p with
  | nil => intro s y _; rfl
  | cons a p ih =>
    intro s y h
    cases s with
    | nil => simp [isPre] at h
    | cons b s =>
      simp only [isPre, Bool.and_eq_true] at h
      simp only [List.cons_append, isPre, Bool.and_eq_true]
      exact ⟨h.1, ih y h.2⟩

lemma isPre_hasSub {p s : List Char} (h : isPre p s = true) : hasSub p s = true := by
  cases s with
  | nil =>
    cases p with
    | nil => rfl
    | cons a p => simp [isPre] at h
  | cons c r => simp [hasSub, h]

lemma hasSub_cons {p r : List Char} (c : Char) (h : hasSub p r = true) :
    hasSub p (c :: r) = true := by
  simp [hasSub, h]

lemma hasSub_append_right {p : List Char} (x : List Char) {y : List Char}
    (h : hasSub p y = true) : hasSub p (x ++ y) = true := by
  induction x with
  | nil => simpa using h
  | cons c x ih => exact hasSub_cons c ih

lemma hasSub_append_left {p x : List Char} (y : List Char)
    (h : hasSub p x = true) : hasSub p (x ++ y) = true := by
  induction x with
  | nil =>
    cases p with
    | nil =>
      cases y with
      | nil => rfl
      | cons c r => simp [hasSub, isPre]
    | cons a p => simp [hasSub] at h
  | cons c x ih =>
    simp only [hasSub, Bool.or_eq_true] at h
    rcases h with h | h
    · simp only [List.cons_append, hasSub, Bool.or_eq_true]
      exact Or.inl (isPre_append_mono y h)
    · simp only [List.cons_append, hasSub, Bool.or_eq_true]
      exact Or.inr (by simpa using ih h)

lemma hasSub_false_left {p x y : List Char} (h : hasSub p (x ++ y) = false) :
    hasSub p x = false := by
  by_contra hx
  rw [Bool.not_eq_false] at hx
  rw [hasSub_append_left y hx] at h
  exact Bool.noConfusion h

lemma hasSub_false_right {p x y : List Char} (h : hasSub p (x ++ y) = false) :
    hasSub p y = false := by
  by_contra hx
  rw [Bool.not_eq_false] at hx
  rw [hasSub_append_right x hx] at h
  exact Bool.noConfusion h

/-- The read loop never returns on a stream in which `*STB` never occurs:
no completed line can contain the token, so the `break` is unreachable for
every iteration bound. -/
lemma askLoop_none {fuel : Nat} : ∀ {stream line txt : List Char},
    hasSub stbTok (line ++ stream) = false → askLoop stream line txt fuel = none := by
  induction fuel with
  | zero => intro stream line txt _; exact askLoop_zero _ _ _
  | succ n ih =>
    intro stream line txt h
    cases stream with
    | nil => rw [askLoop_nil]; exact ih h
    | cons c rest =>
      have hsplit : hasSub stbTok ((line ++ [c]) ++ rest) = false := by
        rw [List.append_assoc, List.singleton_append]; exact h
      by_cases hc : c = '\n'
      · subst hc
        rw [askLoop_newline_go rest line txt n (hasSub_false_left hsplit)]
        exact ih (by simpa using hasSub_false_right hsplit)
      · rw [askLoop_other c rest line txt n hc]
        exact ih hsplit

/-- C2 (code side): `ask` is a bare `while True:` read loop; on any stream in
which no `*STB` token ever appears, it never returns, no matter how many loop
iterations (reads) it is granted — there is no byte-count or time budget and
no `FramingTimeout` anywhere in the source. -/
theorem ask_unbounded_no_marker (stream : List Char) (fuel : Nat)
    (h : hasSub stbTok stream = false) : ask stream fuel = none :=
  askLoop_none (by simpa using h)

/-- Witness: on the concrete marker-free stream `"a\n"` the loop is still
running after 1000 reads. -/
theorem ask_unbounded_no_marker_w : ask ['a', '\n'] 1000 = none :=
  ask_unbounded_no_marker ['a', '\n'] 1000 (by decide)

/-- Consuming a run of non-newline bytes just extends the line buffer. -/
lemma askLoop_chars (l : List Char) : ∀ (rest line txt : List Char) (fuel : Nat),
    (∀ c ∈ l, c ≠ '\n') →
    askLoop (l ++ rest) line txt (l.length + fuel) = askLoop rest (line ++ l) txt fuel := by
  induction l with
  | nil => intro rest line txt fuel _; simp
  | cons a l ih =>
    intro rest line txt fuel hnl
    have ha : a ≠ '\n' := hnl a (List.mem_cons_self a l)
    have hl : ∀ c ∈ l, c ≠ '\n' := fun c hc => hnl c (List.mem_cons_of_mem a hc)
    rw [List.length_cons, Nat.add_right_comm, List.cons_append]
    rw [askLoop_other a (l ++ rest) line txt (l.length + fuel) ha]
    rw [ih rest (line ++ [a]) txt fuel hl, List.append_assoc, List.singleton_append]

/-- Completing a line that does not contain `*STB` appends it (newline
included) to the accumulated text and resets the line buffer. -/
lemma askLoop_dataLine (l rest line txt : List Char) (fuel : Nat)
    (hnl : ∀ c ∈ l, c ≠ '\n')
    (hstb : hasSub stbTok ((line ++ l) ++ ['\n']) = false) :
    askLoop (l ++ '\n' :: rest) line txt ((l.length + 1) + fuel) =
      askLoop rest [] (txt ++ ((line ++ l) ++ ['\n'])) fuel := by
  rw [Nat.add_assoc, askLoop_chars l ('\n' :: rest) line txt (1 + fuel) hnl,
    Nat.add_comm 1 fuel]
  exact askLoop_newline_go rest (line ++ l) txt fuel hstb

/-- Running the loop over a block of clean data lines appends them all. -/
lemma askLoop_dataLines (lines : List (List Char)) : ∀ (rest txt : List Char) (fuel : Nat),
    (∀ l ∈ lines, (∀ c ∈ l, c ≠ '\n') ∧ hasSub stbTok (l ++ ['\n']) = false) →
    askLoop (linesJoin lines ++ rest) [] txt ((linesJoin lines).length + fuel) =
      askLoop rest [] (txt ++ linesJoin lines) fuel := by
  induction lines with
  | nil => intro rest txt fuel _; simp [linesJoin]
  | cons l ls ih =>
    intro rest txt fuel hl
    have h1 := hl l (by simp)
    have hls : ∀ m ∈ ls, (∀ c ∈ m, c ≠ '\n') ∧ hasSub stbTok (m ++ ['\n']) = false :=
      fun m hm => hl m (by simp [hm])
    simp only [linesJoin]
    rw [show (l ++ '\n' :: linesJoin ls) ++ rest = l ++ '\n' :: (linesJoin ls ++ rest) from by
      simp [List.append_assoc]]
    rw [show (l ++ '\n' :: linesJoin ls).length + fuel
        = (l.length + 1) + ((linesJoin ls).length + fuel) from by
      simp [List.length_append]; omega]
    rw [askLoop_dataLine l (linesJoin ls ++ rest) [] txt ((linesJoin ls).length + fuel)
      h1.1 (by simpa using h1.2)]
    rw [ih rest (txt ++ (([] ++ l) ++ ['\n'])) fuel hls]
    rw [show (txt ++ (([] ++ l) ++ ['\n'])) ++ linesJoin ls
        = txt ++ (l ++ '\n' :: linesJoin ls) from by
      simp [List.append_assoc]]

lemma isPre_no_semi {p : List Char} (hp : ∀ a ∈ p, a ≠ ';') :
    ∀ {x : List Char} (y : List Char), isPre p (x ++ ';' :: y) = true → isPre p x = true := by
  induction p with
  | nil => intro x y _; rfl
  | cons a p ih =>
    intro x y h
    cases x with
    | nil =>
      simp only [List.nil_append, isPre, Bool.and_eq_true, beq_iff_eq] at h
      exact absurd h.1 (hp a (by simp))
    | cons b x =>
      simp only [List.cons_append, isPre, Bool.and_eq_true] at h ⊢
      exact ⟨h.1, ih (fun a ha => hp a (List.mem_cons_of_mem _ ha)) y h.2⟩

/-- `line.split(";*STB")[0]` recovers exactly the text before the separator
when the text before it never mentions `*STB` (the separator `;*STB` has no
non-trivial self-overlap, since `*STB` does not contain `;`). -/
lemma splitHead_sep (pre : List Char) : ∀ (r : List Char),
    hasSub stbTok pre = false → splitHead stbSep ((pre ++ stbSep) ++ r) = pre := by
  induction pre with
  | nil =>
    intro r _
    show splitHead stbSep (';' :: (stbTok ++ r)) = []
    simp only [splitHead]
    rw [if_pos (show isPre stbSep (';' :: (stbTok ++ r)) = true from isPre_self_append stbSep r)]
  | cons c pre ih =>
    intro r h
    have hc : hasSub stbTok pre = false := by
      by_contra hx
      rw [Bool.not_eq_false] at hx
      rw [show hasSub stbTok (c :: pre) = (isPre stbTok (c :: pre) || hasSub stbTok pre)
        from rfl, hx] at h
      simp at h
    rw [show ((c :: pre) ++ stbSep) ++ r = c :: ((pre ++ stbSep) ++ r) from by
      simp [List.cons_append]]
    simp only [splitHead]
    rw [if_neg ?_, ih r hc]
    intro hcontra
    have h2 : isPre stbTok ((pre ++ stbSep) ++ r) = true := by
      rw [show stbSep = ';' :: stbTok from rfl] at hcontra
      simp only [isPre, Bool.and_eq_true] at hcontra
      exact hcontra.2
    have h3 : isPre stbTok pre = true := by
      refine isPre_no_semi (by decide) (stbTok ++ r) ?_
      rw [show pre ++ ';' :: (stbTok ++ r) = (pre ++ stbSep) ++ r from by
        rw [List.append_assoc]; rfl]
      exact h2
    rw [isPre_hasSub h3] at hc
    exact Bool.noConfusion hc

/-- Completing the line `pre ++ ";*STB" ++ post ++ "\n"` (with `*STB` not in
`pre`) makes the loop return the accumulated text plus `pre` only. -/
lemma askLoop_markerLine (pre post rest txt : List Char) (fuel : Nat)
    (hpre_nl : ∀ c ∈ pre, c ≠ '\n') (hpost_nl : ∀ c ∈ post, c ≠ '\n')
    (hpre : hasSub stbTok pre = false) :
    askLoop (((pre ++ stbSep) ++ post) ++ '\n' :: rest) [] txt
        ((((pre ++ stbSep) ++ post).length + 1) + fuel) = some (txt ++ pre) := by
  have hsepnl : ∀ x ∈ stbSep, x ≠ '\n' := by decide
  have hnl : ∀ c ∈ (pre ++ stbSep) ++ post, c ≠ '\n' := by
    intro c hc
    rcases List.mem_append.mp hc with hc1 | hc1
    · rcases List.mem_append.mp hc1 with hc2 | hc2
      · exact hpre_nl c hc2
      · exact hsepnl c hc2
    · exact hpost_nl c hc1
  rw [Nat.add_assoc,
    askLoop_chars ((pre ++ stbSep) ++ post) ('\n' :: rest) [] txt (1 + fuel) hnl,
    Nat.add_comm 1 fuel]
  have hsub : hasSub stbTok (([] ++ ((pre ++ stbSep) ++ post)) ++ ['\n']) = true := by
    rw [show ([] ++ ((pre ++ stbSep) ++ post)) ++ ['\n']
        = pre ++ (';' :: (stbTok ++ (post ++ ['\n']))) from by
      simp [List.append_assoc, stbSep, stbTok]]
    exact hasSub_append_right pre
      (hasSub_cons ';' (isPre_hasSub (isPre_self_append stbTok (post ++ ['\n']))))
  rw [askLoop_newline_stop rest ([] ++ ((pre ++ stbSep) ++ post)) txt fuel hsub]
  rw [show ([] ++ ((pre ++ stbSep) ++ post)) ++ ['\n'] = (pre ++ stbSep) ++ (post ++ ['\n'])
    from by simp [List.append_assoc]]
  rw [splitHead_sep pre (post ++ ['\n']) hpre]

/-- C1: on a byte stream whose lines are data lines (free of the `*STB`
token) followed by a line of the form `pre ++ ";*STB" ++ post ++ "\n"` (the
status-token marker `;*STB` preceded by marker-free text `pre`), `ask`
returns exactly the data lines (with their newline terminators) concatenated,
followed by `pre` — the marker and the rest of its line are excluded.  The
fuel is the stream length: one loop iteration per byte. -/
theorem ask_frames_response (lines : List (List Char)) (pre post : List Char)
    (hlines : ∀ l ∈ lines, (∀ c ∈ l, c ≠ '\n') ∧ hasSub stbTok (l ++ ['\n']) = false)
    (hpre_nl : ∀ c ∈ pre, c ≠ '\n') (hpre : hasSub stbTok pre = false)
    (hpost_nl : ∀ c ∈ post, c ≠ '\n') :
    ask (linesJoin lines ++ (((pre ++ stbSep) ++ post) ++ ['\n']))
        (linesJoin lines ++ (((pre ++ stbSep) ++ post) ++ ['\n'])).length
      = some (linesJoin lines ++ pre) := by
  unfold ask
  rw [show (linesJoin lines ++ (((pre ++ stbSep) ++ post) ++ ['\n'])).length
      = (linesJoin lines).length + ((((pre ++ stbSep) ++ post).length + 1) + 0) from by
    simp [List.length_append]; omega]
  rw [askLoop_dataLines lines (((pre ++ stbSep) ++ post) ++ ['\n']) []
    ((((pre ++ stbSep) ++ post).length + 1) + 0) hlines]
  rw [show ((pre ++ stbSep) ++ post) ++ ['\n'] = ((pre ++ stbSep) ++ post) ++ '\n' :: [] from rfl]
  rw [askLoop_markerLine pre post [] ([] ++ linesJoin lines) 0 hpre_nl hpost_nl hpre]
  simp

/-- Witness for C1 at the stream `"ab\ncd\n0;*STB 1\n"`: two data lines, then
a marker line; the framer returns `"ab\ncd\n0"`. -/
theorem ask_frames_response_w :
    ask (linesJoin [['a', 'b'], ['c', 'd']] ++ (((['0'] ++ stbSep) ++ [' ', '1']) ++ ['\n']))
        (linesJoin [['a', 'b'], ['c', 'd']] ++
          (((['0'] ++ stbSep) ++ [' ', '1']) ++ ['\n'])).length
      = some (linesJoin [['a', 'b'], ['c', 'd']] ++ ['0']) :=
  ask_frames_response [['a', 'b'], ['c', 'd']] ['0'] [' ', '1']
    (by decide) (by decide) (by decide) (by decide)

/-- `line.split(";*STB")[0]` is the whole line when `;*STB` does not occur. -/
lemma splitHead_no_sep : ∀ {s : List Char}, hasSub stbSep s = false → splitHead stbSep s = s := by
  intro s
  induction s with
  | nil => intro _; rfl
  | cons c r ih =>
    intro h
    rw [show hasSub stbSep (c :: r) = (isPre stbSep (c :: r) || hasSub stbSep r) from rfl] at h
    rcases Bool.or_eq_false_iff.mp h with ⟨h1, h2⟩
    simp only [splitHead]
    rw [if_neg (by simp [h1]), ih h2]

/-- C9: `ask` terminates at the first completed line containing `*STB`
anywhere — even inside response data, with arbitrary further bytes `rest`
left unread — and when that line contains `*STB` but not the separator
`;*STB`, the entire line, marker and newline included, is appended to the
returned text (because `line.split(";*STB")[0]` is then the whole line). -/
theorem ask_stops_at_bare_stb (lines : List (List Char)) (l rest : List Char)
    (hlines : ∀ m ∈ lines, (∀ c ∈ m, c ≠ '\n') ∧ hasSub stbTok (m ++ ['\n']) = false)
    (hl_nl : ∀ c ∈ l, c ≠ '\n')
    (hstb : hasSub stbTok (l ++ ['\n']) = true)
    (hsep : hasSub stbSep (l ++ ['\n']) = false) :
    ask (linesJoin lines ++ (l ++ '\n' :: rest))
        ((linesJoin lines).length + (l.length + 1))
      = some (linesJoin lines ++ (l ++ ['\n'])) := by
  unfold ask
  rw [askLoop_dataLines lines (l ++ '\n' :: rest) [] (l.length + 1) hlines]
  rw [show l.length + 1 = l.length + (0 + 1) from by omega]
  rw [askLoop_chars l ('\n' :: rest) [] ([] ++ linesJoin lines) (0 + 1) hl_nl]
  rw [askLoop_newline_stop rest ([] ++ l) ([] ++ linesJoin lines) 0 (by simpa using hstb)]
  rw [show ([] ++ l) ++ ['\n'] = l ++ ['\n'] from by simp]
  rw [splitHead_no_sep hsep]
  simp

/-- Witness for C9: the first line `"data *STB here"` contains `*STB` inside
data but no `;*STB`; `ask` returns that whole line, marker included, with
`"more\n"` left unread. -/
theorem ask_stops_at_bare_stb_w :
    ask (linesJoin [] ++ (("data *STB here").toList ++ '\n' :: ("more\n").toList))
        ((linesJoin []).length + (("data *STB here").toList.length + 1))
      = some (linesJoin [] ++ (("data *STB here").toList ++ ['\n'])) :=
  ask_stops_at_bare_stb [] (("data *STB here").toList) (("more\n").toList)
    (by decide) (by decide) (by decide) (by decide)

/-! ## The scientific-number grammar

`scinot = Combine(Optional(plusminus) + digits + "." + digits + oneOf("e E")
+ plusminus + digits)` at `src/lc574alDataGrabber.py:132-134` (and its
verbatim duplicate at lines 173-175).  `Combine` forbids whitespace between
the parts, so the token is matched on adjacent characters; `Word(nums)` is a
greedy non-empty digit run; the exponent sign is *not* optional in the
source.  `scinotParse` returns the matched token and the remaining input;
`sciVal` is the exact value of such a literal (the embedding of Python
`float(token)`). -/

/-- Greedy non-empty digit run: `pyparsing.Word(pyparsing.nums)` matched
adjacently (inside `Combine`). -/
def wordNums (s : List Char) : Option (List Char × List Char) :=
  match s.takeWhile Char.isDigit with
  | [] => none
  | a :: t => some (a :: t, s.dropWhile Char.isDigit)

/-- Body of `scinot` after the optional leading sign: digits, a literal dot,
digits, `e` or `E`, a mandatory sign, digits.  Returns the full matched token
(leading sign included) and the rest of the input. -/
def scinotBody (sgn s1 : List Char) : Option (List Char × List Char) :=
  match wordNums s1 with
  | none => none
  | some (d1, s2) =>
    match s2 with
    | [] => none
    | c2 :: s3 =>
      if c2 = '.' then
        match wordNums s3 with
        | none => none
        | some (d2, s4) =>
          match s4 with
          | e :: es :: s6 =>
            if e = 'e' ∨ e = 'E' then
              if es = '+' ∨ es = '-' then
                match wordNums s6 with
                | none => none
                | some (d3, s7) =>
                  some (sgn ++ (d1 ++ (c2 :: (d2 ++ (e :: (es :: d3))))), s7)
              else none
            else none
          | _ => none
      else none

/-- The `scinot` parser element at the current position: optional sign, then
the body.  (`Optional(plusminus)` commits to a sign character when present;
scientific-notation parsing then continues after it.) -/
def scinotParse (s : List Char) : Option (List Char × List Char) :=
  match s with
  | [] => none
  | c :: r => if c = '+' ∨ c = '-' then scinotBody [c] r else scinotBody [] (c :: r)

/-- Value of a digit run (most-significant first). -/
def digitsToNat (l : List Char) : ℕ :=
  l.foldl (fun a c => 10 * a + (c.toNat - 48)) 0

/-- Characters other than the exponent markers `e`/`E`. -/
def notEe (c : Char) : Bool := !(c == 'e' || c == 'E')

/-- Characters other than the decimal point. -/
def notDot (c : Char) : Bool := !(c == '.')

/-- Strip one optional leading sign; the flag is true for `-`. -/
def stripSign (s : List Char) : Bool × List Char :=
  match s with
  | [] => (false, [])
  | c :: r => if c = '-' then (true, r) else if c = '+' then (false, r) else (false, c :: r)

/-- An exact decimal number `m / 10 ^ k`.  Every value the instrument's
literals denote is of this shape, and all the arithmetic this program does on
them (sums, products) stays inside it, so this is an exact embedding of the
numeric semantics — chosen over `ℚ` so that concrete runs of the parsers
reduce inside the kernel. -/
structure Dec where
  m : ℤ
  k : ℕ
deriving DecidableEq, Repr

/-- Canonical form: strip factors of ten out of the mantissa.  Two canonical
`Dec`s are equal iff they denote the same rational. -/
def decNorm : ℤ → ℕ → Dec
  | m, 0 => ⟨m, 0⟩
  | m, k + 1 => if m % 10 = 0 then decNorm (m / 10) k else ⟨m, k + 1⟩

/-- The rational a `Dec` denotes. -/
def Dec.toRat (d : Dec) : ℚ := (d.m : ℚ) / 10 ^ d.k

/-- Exact sum. -/
def Dec.add (a b : Dec) : Dec :=
  decNorm (a.m * 10 ^ b.k + b.m * 10 ^ a.k) (a.k + b.k)

/-- Exact product. -/
def Dec.mul (a b : Dec) : Dec := decNorm (a.m * b.m) (a.k + b.k)

/-- Exact negation (canonicity is preserved). -/
def Dec.neg (a : Dec) : Dec := ⟨-a.m, a.k⟩

lemma decNorm_toRat : ∀ (k : ℕ) (m : ℤ), (decNorm m k).toRat = (m : ℚ) / 10 ^ k := by
  intro k
  induction k with
  | zero => intro m; rfl
  | succ k ih =>
    intro m
    by_cases h : m % 10 = 0
    · obtain ⟨m', rfl⟩ : (10 : ℤ) ∣ m := Int.dvd_of_emod_eq_zero h
      rw [show decNorm (10 * m') (k + 1) = decNorm ((10 * m') / 10) k from by
        simp only [decNorm]; rw [if_pos h]]
      rw [Int.mul_ediv_cancel_left m' (by norm_num), ih m']
      push_cast
      rw [pow_succ]
      field_simp
      ring
    · rw [show decNorm m (k + 1) = ⟨m, k + 1⟩ from by
        simp only [decNorm]; rw [if_neg h]]
      rfl

lemma Dec.neg_toRat (d : Dec) : (Dec.neg d).toRat = -(d.toRat) := by
  simp [Dec.neg, Dec.toRat, neg_div]

lemma Dec.add_toRat (a b : Dec) : (Dec.add a b).toRat = a.toRat + b.toRat := by
  rw [show Dec.add a b = decNorm (a.m * 10 ^ b.k + b.m * 10 ^ a.k) (a.k + b.k) from rfl,
    decNorm_toRat]
  simp only [Dec.toRat]
  push_cast
  rw [pow_add]
  have h1 : ((10 : ℚ) ^ a.k) ≠ 0 := by positivity
  have h2 : ((10 : ℚ) ^ b.k) ≠ 0 := by positivity
  field_simp

lemma Dec.mul_toRat (a b : Dec) : (Dec.mul a b).toRat = a.toRat * b.toRat := by
  rw [show Dec.mul a b = decNorm (a.m * b.m) (a.k + b.k) from rfl, decNorm_toRat]
  simp only [Dec.toRat]
  push_cast
  rw [pow_add]
  have h1 : ((10 : ℚ) ^ a.k) ≠ 0 := by positivity
  have h2 : ((10 : ℚ) ^ b.k) ≠ 0 := by positivity
  field_simp

/-- Exact value of the unsigned part `digits.digits[eE][+-]digits` of a
scientific literal: `ip.fp × 10^(±exp)`. -/
def sciValPos (t1 : List Char) : Dec :=
  let m := t1.takeWhile notEe
  let e := (t1.dropWhile notEe).drop 1
  let ip := m.takeWhile notDot
  let fp := (m.dropWhile notDot).drop 1
  let es := stripSign e
  let base : ℤ := ((digitsToNat ip) * 10 ^ fp.length + digitsToNat fp : ℕ)
  let eN := digitsToNat es.2
  if es.1 then decNorm base (fp.length + eN)
  else decNorm (base * 10 ^ eN) fp.length

/-- Exact value of a matched `scinot` token: the embedding of Python
`float(token)` (exact decimal semantics; IEEE rounding is not modelled). -/
def sciVal (tok : List Char) : Dec :=
  let ns := stripSign tok
  if ns.1 then Dec.neg (sciValPos ns.2) else sciValPos ns.2

/-- The shapes the optional leading sign can take. -/
def signTok (s : List Char) : Prop := s = [] ∨ s = ['+'] ∨ s = ['-']

/-- Sign factor of the optional mantissa sign. -/
def sgnFac (s : List Char) : ℚ := if s = ['-'] then -1 else 1

/-- Sign factor of the (mandatory) exponent sign. -/
def expFac (c : Char) : ℤ := if c = '-' then -1 else 1

/-- Modelled from the claim's words: a full-string matcher for the pattern
`[+-]? digits '.' digits [eE] [+-]? digits` — the exponent sign *optional*,
as claim C3 states it. -/
def claimNumPat (s0 : List Char) : Bool :=
  let p1 := stripSign s0
  match p1.2.takeWhile Char.isDigit with
  | [] => false
  | _ :: _ =>
    match p1.2.dropWhile Char.isDigit with
    | '.' :: s3 =>
      match s3.takeWhile Char.isDigit with
      | [] => false
      | _ :: _ =>
        match s3.dropWhile Char.isDigit with
        | c :: s5 =>
          if c = 'e' ∨ c = 'E' then
            let p2 := stripSign s5
            match p2.2.takeWhile Char.isDigit with
            | [] => false
            | _ :: _ => (p2.2.dropWhile Char.isDigit).isEmpty
          else false
        | [] => false
    | _ => false

lemma takeWhile_app (p : Char → Bool) : ∀ (l r : List Char),
    (∀ c ∈ l, p c = true) → (∀ c, r.head? = some c → p c = false) →
    (l ++ r).takeWhile p = l := by
  intro l
  induction l with
  | nil =>
    intro r _ h2
    cases r with
    | nil => rfl
    | cons c r' => simp [List.takeWhile, h2 c rfl]
  | cons a l ih =>
    intro r h1 h2
    have ha := h1 a (List.mem_cons_self a l)
    simp [List.takeWhile, ha, ih r (fun c hc => h1 c (List.mem_cons_of_mem a hc)) h2]

lemma dropWhile_app (p : Char → Bool) : ∀ (l r : List Char),
    (∀ c ∈ l, p c = true) → (∀ c, r.head? = some c → p c = false) →
    (l ++ r).dropWhile p = r := by
  intro l
  induction l with
  | nil =>
    intro r _ h2
    cases r with
    | nil => rfl
    | cons c r' => simp [List.dropWhile, h2 c rfl]
  | cons a l ih =>
    intro r h1 h2
    have ha := h1 a (List.mem_cons_self a l)
    simp [List.dropWhile, ha, ih r (fun c hc => h1 c (List.mem_cons_of_mem a hc)) h2]

lemma isDigit_ne {c : Char} (x : Char) (hc : c.isDigit = true) (hx : x.isDigit = false) :
    c ≠ x := by
  intro e
  subst e
  rw [hc] at hx
  exact Bool.noConfusion hx

lemma head_notDigit_of (x : Char) (hx : x.isDigit = false) (T : List Char) :
    ∀ c, ((x :: T) : List Char).head? = some c → c.isDigit = false := by
  intro c h
  have : x = c := Option.some.inj h
  rw [← this]
  exact hx

lemma wordNums_app (d r : List Char) (hd : d ≠ []) (hdig : ∀ c ∈ d, c.isDigit = true)
    (hr : ∀ c, r.head? = some c → c.isDigit = false) :
    wordNums (d ++ r) = some (d, r) := by
  cases d with
  | nil => exact absurd rfl hd
  | cons a d' =>
    unfold wordNums
    rw [takeWhile_app Char.isDigit (a :: d') r hdig hr,
      dropWhile_app Char.isDigit (a :: d') r hdig hr]

lemma wordNums_split {s t r : List Char} (h : wordNums s = some (t, r)) : s = t ++ r := by
  unfold wordNums at h
  split at h
  · exact absurd h (by simp)
  · rename_i a t' heq
    have hs := List.takeWhile_append_dropWhile (p := Char.isDigit) (l := s)
    obtain ⟨h1, h2⟩ := Prod.mk.injEq .. ▸ Option.some.inj h
    rw [← h1, ← h2, ← heq]
    exact hs.symm

lemma stripSign_digit {a : Char} (r : List Char) (ha : a.isDigit = true) :
    stripSign (a :: r) = (false, a :: r) := by
  simp only [stripSign]
  rw [if_neg (isDigit_ne '-' ha (by decide)), if_neg (isDigit_ne '+' ha (by decide))]

lemma digit_notEe {c : Char} (hc : c.isDigit = true) : notEe c = true := by
  have h1 : c ≠ 'e' := isDigit_ne 'e' hc (by decide)
  have h2 : c ≠ 'E' := isDigit_ne 'E' hc (by decide)
  simp [notEe, h1, h2]

lemma digit_notDot {c : Char} (hc : c.isDigit = true) : notDot c = true := by
  have h1 : c ≠ '.' := isDigit_ne '.' hc (by decide)
  simp [notDot, h1]

/-- Parsing success of the body on a well-shaped span: the greedy digit runs
stop exactly at the dot, the exponent marker, and the first non-digit after
the exponent digits. -/
lemma scinotBody_steps (sgn d1 d2 : List Char) (ech esg : Char) (d3 rest : List Char)
    (h1 : d1 ≠ []) (h1d : ∀ c ∈ d1, c.isDigit = true)
    (h2 : d2 ≠ []) (h2d : ∀ c ∈ d2, c.isDigit = true)
    (h3 : d3 ≠ []) (h3d : ∀ c ∈ d3, c.isDigit = true)
    (he : ech = 'e' ∨ ech = 'E') (hes : esg = '+' ∨ esg = '-')
    (hrest : ∀ c, rest.head? = some c → c.isDigit = false) :
    scinotBody sgn (d1 ++ ('.' :: (d2 ++ (ech :: (esg :: (d3 ++ rest)))))) =
      some (sgn ++ (d1 ++ ('.' :: (d2 ++ (ech :: (esg :: d3))))), rest) := by
  have hech : ech.isDigit = false := by
    rcases he with rfl | rfl <;> decide
  have hw1 : wordNums (d1 ++ ('.' :: (d2 ++ (ech :: (esg :: (d3 ++ rest)))))) =
      some (d1, '.' :: (d2 ++ (ech :: (esg :: (d3 ++ rest))))) :=
    wordNums_app d1 _ h1 h1d (head_notDigit_of '.' (by decide) _)
  have hw2 : wordNums (d2 ++ (ech :: (esg :: (d3 ++ rest)))) =
      some (d2, ech :: (esg :: (d3 ++ rest))) :=
    wordNums_app d2 _ h2 h2d (head_notDigit_of ech hech _)
  have hw3 : wordNums (d3 ++ rest) = some (d3, rest) :=
    wordNums_app d3 rest h3 h3d hrest
  rcases he with rfl | rfl <;> rcases hes with rfl | rfl <;>
    simp [scinotBody, hw1, hw2, hw3]

/-- Value of the unsigned span: integer part plus fractional part, scaled by
ten to the signed exponent. -/
lemma sciValPos_eq (d1 d2 : List Char) (ech esg : Char) (d3 : List Char)
    (h1d : ∀ c ∈ d1, c.isDigit = true) (h2d : ∀ c ∈ d2, c.isDigit = true)
    (he : ech = 'e' ∨ ech = 'E') (hes : esg = '+' ∨ esg = '-') :
    (sciValPos (d1 ++ ('.' :: (d2 ++ (ech :: (esg :: d3)))))).toRat =
      (if esg = '-' then
        ((digitsToNat d1 : ℚ) + (digitsToNat d2 : ℚ) / 10 ^ d2.length) / 10 ^ digitsToNat d3
      else
        ((digitsToNat d1 : ℚ) + (digitsToNat d2 : ℚ) / 10 ^ d2.length) * 10 ^ digitsToNat d3) := by
  have hEe : notEe ech = false := by
    rcases he with rfl | rfl <;> decide
  have hshape : d1 ++ ('.' :: (d2 ++ (ech :: (esg :: d3))))
      = (d1 ++ ('.' :: d2)) ++ (ech :: (esg :: d3)) := by
    simp [List.append_assoc]
  have hmemEe : ∀ c ∈ d1 ++ ('.' :: d2), notEe c = true := by
    intro c hc
    rcases List.mem_append.mp hc with hc | hc
    · exact digit_notEe (h1d c hc)
    · rcases List.mem_cons.mp hc with rfl | hc
      · decide
      · exact digit_notEe (h2d c hc)
  have hm : (d1 ++ ('.' :: (d2 ++ (ech :: (esg :: d3))))).takeWhile notEe
      = d1 ++ ('.' :: d2) := by
    rw [hshape]
    exact takeWhile_app notEe _ _ hmemEe (fun c h => by rw [← Option.some.inj h]; exact hEe)
  have hd : (d1 ++ ('.' :: (d2 ++ (ech :: (esg :: d3))))).dropWhile notEe
      = ech :: (esg :: d3) := by
    rw [hshape]
    exact dropWhile_app notEe _ _ hmemEe (fun c h => by rw [← Option.some.inj h]; exact hEe)
  have hip : (d1 ++ ('.' :: d2)).takeWhile notDot = d1 :=
    takeWhile_app notDot d1 ('.' :: d2) (fun c hc => digit_notDot (h1d c hc))
      (fun c h => by rw [← Option.some.inj h]; decide)
  have hfp : (d1 ++ ('.' :: d2)).dropWhile notDot = '.' :: d2 :=
    dropWhile_app notDot d1 ('.' :: d2) (fun c hc => digit_notDot (h1d c hc))
      (fun c h => by rw [← Option.some.inj h]; decide)
  have hne : ((10 : ℚ) ^ d2.length) ≠ 0 := by positivity
  rcases hes with rfl | rfl
  · rw [if_neg (by decide : ¬('+' : Char) = '-')]
    simp only [sciValPos, hm, hd, hip, hfp, List.drop_succ_cons, List.drop_zero]
    rw [show stripSign ('+' :: d3) = (false, d3) from by simp [stripSign]]
    dsimp only
    rw [if_neg Bool.false_ne_true, decNorm_toRat]
    push_cast
    field_simp
  · rw [if_pos rfl]
    simp only [sciValPos, hm, hd, hip, hfp, List.drop_succ_cons, List.drop_zero]
    rw [show stripSign ('-' :: d3) = (true, d3) from by simp [stripSign]]
    dsimp only
    rw [if_pos rfl, decNorm_toRat]
    push_cast
    rw [pow_add, ← div_div, add_div, mul_div_assoc, div_self hne, mul_one]

/-- Unfolding `sciVal` through the sign strip. -/
lemma sciVal_eq_of {tok t1 : List Char} {b : Bool} (h : stripSign tok = (b, t1)) :
    sciVal tok = if b = true then Dec.neg (sciValPos t1) else sciValPos t1 := by
  simp only [sciVal, h]

/-- Value of a full signed token, in signed-power-of-ten form. -/
lemma sciVal_bridge (sgn d1 d2 : List Char) (ech esg : Char) (d3 : List Char)
    (hs : signTok sgn) (h1 : d1 ≠ []) (h1d : ∀ c ∈ d1, c.isDigit = true)
    (h2d : ∀ c ∈ d2, c.isDigit = true)
    (he : ech = 'e' ∨ ech = 'E') (hes : esg = '+' ∨ esg = '-') :
    (sciVal (sgn ++ (d1 ++ ('.' :: (d2 ++ (ech :: (esg :: d3))))))).toRat =
      sgnFac sgn * (((digitsToNat d1 : ℚ) + (digitsToNat d2 : ℚ) / 10 ^ d2.length) *
        (10 : ℚ) ^ (expFac esg * (digitsToNat d3 : ℤ))) := by
  have hvalpos := sciValPos_eq d1 d2 ech esg d3 h1d h2d he hes
  obtain ⟨a, d1', rfl⟩ : ∃ a d1', d1 = a :: d1' := by
    cases d1 with
    | nil => exact absurd rfl h1
    | cons a d1' => exact ⟨a, d1', rfl⟩
  have ha : a.isDigit = true := h1d a (List.mem_cons_self _ _)
  have hzpow : ((10 : ℚ) ^ (expFac esg * (digitsToNat d3 : ℤ)))
      = (if esg = '-' then ((10 : ℚ) ^ digitsToNat d3)⁻¹ else (10 : ℚ) ^ digitsToNat d3) := by
    rcases hes with rfl | rfl
    · rw [if_neg (by decide : ¬('+' : Char) = '-')]
      rw [show expFac '+' = 1 from rfl, one_mul, zpow_natCast]
    · rw [if_pos rfl]
      rw [show expFac '-' = -1 from rfl]
      rw [show (-1 : ℤ) * (digitsToNat d3 : ℤ) = -(digitsToNat d3 : ℤ) from by ring]
      rw [zpow_neg, zpow_natCast]
  rw [hzpow]
  rcases hs with rfl | rfl | rfl
  · rw [List.nil_append]
    have hstrip : stripSign (a :: d1' ++ ('.' :: (d2 ++ (ech :: (esg :: d3)))))
        = (false, a :: d1' ++ ('.' :: (d2 ++ (ech :: (esg :: d3))))) := by
      rw [List.cons_append]
      exact stripSign_digit _ ha
    rw [sciVal_eq_of hstrip, if_neg Bool.false_ne_true, hvalpos]
    rw [show sgnFac [] = 1 from rfl, one_mul]
    rcases Decidable.em (esg = '-') with hneg | hneg
    · rw [if_pos hneg, if_pos hneg, div_eq_mul_inv]
    · rw [if_neg hneg, if_neg hneg]
  · have hstrip : stripSign (['+'] ++ (a :: d1' ++ ('.' :: (d2 ++ (ech :: (esg :: d3))))))
        = (false, a :: d1' ++ ('.' :: (d2 ++ (ech :: (esg :: d3))))) := by
      simp [stripSign]
    rw [sciVal_eq_of hstrip, if_neg Bool.false_ne_true, hvalpos]
    rw [show sgnFac ['+'] = 1 from rfl, one_mul]
    rcases Decidable.em (esg = '-') with hneg | hneg
    · rw [if_pos hneg, if_pos hneg, div_eq_mul_inv]
    · rw [if_neg hneg, if_neg hneg]
  · have hstrip : stripSign (['-'] ++ (a :: d1' ++ ('.' :: (d2 ++ (ech :: (esg :: d3))))))
        = (true, a :: d1' ++ ('.' :: (d2 ++ (ech :: (esg :: d3))))) := by
      simp [stripSign]
    rw [sciVal_eq_of hstrip, if_pos rfl, Dec.neg_toRat, hvalpos]
    rw [show sgnFac ['-'] = -1 from rfl, neg_one_mul]
    rcases Decidable.em (esg = '-') with hneg | hneg
    · rw [if_pos hneg, if_pos hneg, div_eq_mul_inv]
    · rw [if_neg hneg, if_neg hneg]

/-- Parse-success and exact value of a full `scinot` token followed by
non-digit input (the greedy-longest-match boundary). -/
lemma scinot_success (sgn d1 d2 : List Char) (ech esg : Char) (d3 rest : List Char)
    (hs : signTok sgn)
    (h1 : d1 ≠ []) (h1d : ∀ c ∈ d1, c.isDigit = true)
    (h2 : d2 ≠ []) (h2d : ∀ c ∈ d2, c.isDigit = true)
    (h3 : d3 ≠ []) (h3d : ∀ c ∈ d3, c.isDigit = true)
    (he : ech = 'e' ∨ ech = 'E') (hes : esg = '+' ∨ esg = '-')
    (hrest : ∀ c, rest.head? = some c → c.isDigit = false) :
    scinotParse (sgn ++ (d1 ++ ('.' :: (d2 ++ (ech :: (esg :: (d3 ++ rest))))))) =
      some (sgn ++ (d1 ++ ('.' :: (d2 ++ (ech :: (esg :: d3))))), rest) ∧
    (sciVal (sgn ++ (d1 ++ ('.' :: (d2 ++ (ech :: (esg :: d3))))))).toRat =
      sgnFac sgn * (((digitsToNat d1 : ℚ) + (digitsToNat d2 : ℚ) / 10 ^ d2.length) *
        (10 : ℚ) ^ (expFac esg * (digitsToNat d3 : ℤ))) := by
  have hbody := scinotBody_steps sgn d1 d2 ech esg d3 rest
    h1 h1d h2 h2d h3 h3d he hes hrest
  refine ⟨?_, sciVal_bridge sgn d1 d2 ech esg d3 hs h1 h1d h2d he hes⟩
  obtain ⟨a, d1', rfl⟩ : ∃ a d1', d1 = a :: d1' := by
    cases d1 with
    | nil => exact absurd rfl h1
    | cons a d1' => exact ⟨a, d1', rfl⟩
  have ha : a.isDigit = true := h1d a (List.mem_cons_self _ _)
  have hnsign : ¬(a = '+' ∨ a = '-') := by
    rintro (rfl | rfl) <;> exact Bool.noConfusion ha
  rcases hs with rfl | rfl | rfl
  · simp only [List.nil_append, List.cons_append] at hbody ⊢
    simp only [scinotParse]
    rw [if_neg hnsign]
    exact hbody
  · simp only [List.nil_append, List.cons_append] at hbody ⊢
    simp only [scinotParse]
    simpa using hbody
  · simp only [List.nil_append, List.cons_append] at hbody ⊢
    simp only [scinotParse]
    simpa using hbody

/-- A span without a decimal point cannot match the body. -/
lemma scinotBody_none_no_dot (sgn : List Char) : ∀ {s1 : List Char},
    '.' ∉ s1 → scinotBody sgn s1 = none := by
  intro s1 hdot
  cases hw1 : wordNums s1 with
  | none => simp [scinotBody, hw1]
  | some p1 =>
    obtain ⟨d1, s2⟩ := p1
    cases s2 with
    | nil => simp [scinotBody, hw1]
    | cons c2 s3 =>
      have hc2 : c2 ≠ '.' := by
        intro hcontra
        refine hdot ?_
        rw [wordNums_split hw1, hcontra]
        simp
      simp [scinotBody, hw1, hc2]

/-- A span without an exponent marker cannot match the body. -/
lemma scinotBody_none_no_e (sgn : List Char) : ∀ {s1 : List Char},
    'e' ∉ s1 → 'E' ∉ s1 → scinotBody sgn s1 = none := by
  intro s1 hesm hEsm
  cases hw1 : wordNums s1 with
  | none => simp [scinotBody, hw1]
  | some p1 =>
    obtain ⟨d1, s2⟩ := p1
    have hs1 : s1 = d1 ++ s2 := wordNums_split hw1
    cases s2 with
    | nil => simp [scinotBody, hw1]
    | cons c2 s3 =>
      by_cases hc2 : c2 = '.'
      · subst hc2
        cases hw2 : wordNums s3 with
        | none => simp [scinotBody, hw1, hw2]
        | some p2 =>
          obtain ⟨d2, s4⟩ := p2
          have hs3 : s3 = d2 ++ s4 := wordNums_split hw2
          cases s4 with
          | nil => simp [scinotBody, hw1, hw2]
          | cons e s5 =>
            cases s5 with
            | nil => simp [scinotBody, hw1, hw2]
            | cons es s6 =>
              have hee : ¬(e = 'e' ∨ e = 'E') := by
                have hein : e ∈ s1 := by
                  rw [hs1, hs3]
                  simp
                rintro (rfl | rfl)
                · exact hesm hein
                · exact hEsm hein
              simp [scinotBody, hw1, hw2, hee]
      · simp [scinotBody, hw1, hc2]

/-- After the exponent marker the source demands a sign; a digit there makes
the whole `scinot` fail. -/
lemma scinotBody_unsigned_exp (sgn d1 d2 : List Char) (ech b : Char) (r3 : List Char)
    (h1 : d1 ≠ []) (h1d : ∀ c ∈ d1, c.isDigit = true)
    (h2 : d2 ≠ []) (h2d : ∀ c ∈ d2, c.isDigit = true)
    (he : ech = 'e' ∨ ech = 'E') (hb : b.isDigit = true) :
    scinotBody sgn (d1 ++ ('.' :: (d2 ++ (ech :: (b :: r3))))) = none := by
  have hech : ech.isDigit = false := by
    rcases he with rfl | rfl <;> decide
  have hw1 : wordNums (d1 ++ ('.' :: (d2 ++ (ech :: (b :: r3))))) =
      some (d1, '.' :: (d2 ++ (ech :: (b :: r3)))) :=
    wordNums_app d1 _ h1 h1d (head_notDigit_of '.' (by decide) _)
  have hw2 : wordNums (d2 ++ (ech :: (b :: r3))) = some (d2, ech :: (b :: r3)) :=
    wordNums_app d2 _ h2 h2d (head_notDigit_of ech hech _)
  have hbsign : ¬(b = '+' ∨ b = '-') := by
    rintro (rfl | rfl) <;> exact Bool.noConfusion hb
  rcases he with rfl | rfl <;> simp [scinotBody, hw1, hw2, hbsign]

/-- C3 (counterexample): `"1.0e5"` matches the claim's pattern (optional
exponent sign) yet the source grammar rejects it — the exponent sign is
mandatory in `scinot`. -/
theorem scinot_claim_pattern_cex :
    claimNumPat (("1.0e5").toList) = true ∧ scinotParse (("1.0e5").toList) = none := by
  constructor
  · rfl
  · rfl

/-- C3 (amended): the numeric-token grammar accepts exactly
`[+-]? digits '.' digits [eE] [+-] digits` — the exponent sign mandatory.
For every span of that shape (followed by a non-digit boundary) parsing
succeeds, consuming exactly the token and recovering its exact value; every
string missing the decimal point or the exponent marker fails, and so does a
token whose exponent has no explicit sign. -/
theorem scinot_grammar_amended :
    (∀ (sgn d1 d2 : List Char) (ech esg : Char) (d3 rest : List Char),
        signTok sgn → d1 ≠ [] → (∀ c ∈ d1, c.isDigit = true) →
        d2 ≠ [] → (∀ c ∈ d2, c.isDigit = true) →
        d3 ≠ [] → (∀ c ∈ d3, c.isDigit = true) →
        (ech = 'e' ∨ ech = 'E') → (esg = '+' ∨ esg = '-') →
        (∀ c, rest.head? = some c → c.isDigit = false) →
        scinotParse (sgn ++ (d1 ++ ('.' :: (d2 ++ (ech :: (esg :: (d3 ++ rest))))))) =
            some (sgn ++ (d1 ++ ('.' :: (d2 ++ (ech :: (esg :: d3))))), rest) ∧
          (sciVal (sgn ++ (d1 ++ ('.' :: (d2 ++ (ech :: (esg :: d3))))))).toRat =
            sgnFac sgn * (((digitsToNat d1 : ℚ) + (digitsToNat d2 : ℚ) / 10 ^ d2.length) *
              (10 : ℚ) ^ (expFac esg * (digitsToNat d3 : ℤ)))) ∧
    (∀ s : List Char, '.' ∉ s → scinotParse s = none) ∧
    (∀ s : List Char, 'e' ∉ s → 'E' ∉ s → scinotParse s = none) ∧
    (∀ (sgn d1 d2 : List Char) (ech b : Char) (r3 : List Char),
        signTok sgn → d1 ≠ [] → (∀ c ∈ d1, c.isDigit = true) →
        d2 ≠ [] → (∀ c ∈ d2, c.isDigit = true) →
        (ech = 'e' ∨ ech = 'E') → b.isDigit = true →
        scinotParse (sgn ++ (d1 ++ ('.' :: (d2 ++ (ech :: (b :: r3)))))) = none) := by
  refine ⟨scinot_success, ?_, ?_, ?_⟩
  · intro s hdot
    cases s with
    | nil => rfl
    | cons c r =>
      simp only [scinotParse]
      by_cases hc : c = '+' ∨ c = '-'
      · rw [if_pos hc]
        exact scinotBody_none_no_dot [c] (fun hm => hdot (List.mem_cons_of_mem c hm))
      · rw [if_neg hc]
        exact scinotBody_none_no_dot [] hdot
  · intro s hesm hEsm
    cases s with
    | nil => rfl
    | cons c r =>
      simp only [scinotParse]
      by_cases hc : c = '+' ∨ c = '-'
      · rw [if_pos hc]
        exact scinotBody_none_no_e [c] (fun hm => hesm (List.mem_cons_of_mem c hm))
          (fun hm => hEsm (List.mem_cons_of_mem c hm))
      · rw [if_neg hc]
        exact scinotBody_none_no_e [] hesm hEsm
  · intro sgn d1 d2 ech b r3 hs h1 h1d h2 h2d he hb
    have hbody := scinotBody_unsigned_exp sgn d1 d2 ech b r3 h1 h1d h2 h2d he hb
    obtain ⟨a, d1', rfl⟩ : ∃ a d1', d1 = a :: d1' := by
      cases d1 with
      | nil => exact absurd rfl h1
      | cons a d1' => exact ⟨a, d1', rfl⟩
    have ha : a.isDigit = true := h1d a (List.mem_cons_self _ _)
    have hnsign : ¬(a = '+' ∨ a = '-') := by
      rintro (rfl | rfl) <;> exact Bool.noConfusion ha
    rcases hs with rfl | rfl | rfl
    · simp only [List.nil_append, List.cons_append] at hbody ⊢
      simp only [scinotParse]
      rw [if_neg hnsign]
      exact hbody
    · simp only [List.nil_append, List.cons_append] at hbody ⊢
      simp only [scinotParse]
      simpa using hbody
    · simp only [List.nil_append, List.cons_append] at hbody ⊢
      simp only [scinotParse]
      simpa using hbody

/-- Witness for the amended C3, applying each part at a concrete input:
`"1.23e+45"` parses fully with its exact value; `"12e+5"` (no dot) and
`"1.25"` (no exponent marker) and `"1.0e5"` (no exponent sign) all fail. -/
theorem scinot_grammar_amended_w :
    scinotParse (("1.23e+45").toList) = some ((("1.23e+45").toList), []) ∧
    scinotParse (("12e+5").toList) = none ∧
    scinotParse (("1.25").toList) = none ∧
    scinotParse (("1.0e5").toList) = none := by
  obtain ⟨hsucc, hdot, hexp, hsign⟩ := scinot_grammar_amended
  have h := hsucc [] ['1'] ['2', '3'] 'e' '+' ['4', '5'] [] (Or.inl rfl)
    (by decide) (by decide) (by decide) (by decide) (by decide) (by decide)
    (Or.inl rfl) (Or.inl rfl) (fun c hc => by exact absurd hc (by simp))
  exact ⟨h.1, hdot (("12e+5").toList) (by decide),
    hexp (("1.25").toList) (by decide) (by decide),
    hsign [] ['1'] ['0'] 'e' '5' [] (Or.inl rfl) (by decide) (by decide) (by decide) (by decide)
      (Or.inl rfl) (by decide)⟩

/-! ## Trigger-time parsing (`genTimeArrays`, first half)

`src/lc574alDataGrabber.py:128-147`: the TRIGTIME body is split on `"\r\n"`;
each line is fed to `datLine = scinot + scinot` via `parseString` (which
skips leading whitespace and the whitespace between the two tokens — the
default pyparsing whitespace characters are space, tab and newline, *not*
comma), and on success `float(tok0) + float(tok1)` is appended; a parse
failure just skips the line (the source's `try` block with the comment
"It wasn't data. Ignore." — written `try/else` in the file, read as the
catch-and-ignore the spec describes). -/

/-- Default pyparsing whitespace characters: space, tab, newline. -/
def wsChar (c : Char) : Bool := c == ' ' || c == '\t' || c == '\n'

/-- Skip leading whitespace (pyparsing `preParse`). -/
def skipWS (s : List Char) : List Char := s.dropWhile wsChar

/-- `datLine = scinot + scinot` applied with `parseString` semantics:
whitespace may precede each token, anything may follow the second. -/
def datLineParse (s : List Char) : Option (Dec × Dec) :=
  match scinotParse (skipWS s) with
  | none => none
  | some (t1, r1) =>
    match scinotParse (skipWS r1) with
    | none => none
    | some (t2, _) => some (sciVal t1, sciVal t2)

/-- One line's contribution: the sum of its two parsed values, or nothing. -/
def lineSum (l : List Char) : Option Dec :=
  (datLineParse l).map (fun p => Dec.add p.1 p.2)

/-- Python `s.split("\r\n")`, accumulator-style. -/
def splitCRLFAux : List Char → List Char → List (List Char)
  | [], acc => [acc.reverse]
  | [c], acc => [(c :: acc).reverse]
  | c1 :: c2 :: rest, acc =>
    if c1 = '\r' ∧ c2 = '\n' then acc.reverse :: splitCRLFAux rest []
    else splitCRLFAux (c2 :: rest) (c1 :: acc)

/-- Python `s.split("\r\n")`. -/
def splitCRLF (s : List Char) : List (List Char) := splitCRLFAux s []

/-- The trigger-time stage of `genTimeArrays`: the list
`initialTimeValues` built from the TRIGTIME body. -/
def trigParse (body : List Char) : List Dec :=
  (splitCRLF body).filterMap lineSum

/-- A TRIGTIME body made of the given lines, each terminated by `"\r\n"`. -/
def linesJoinCRLF : List (List Char) → List Char
  | [] => []
  | l :: ls => l ++ ('\r' :: ('\n' :: linesJoinCRLF ls))

lemma splitCRLFAux_app : ∀ (l : List Char) (acc rest : List Char), '\r' ∉ l →
    splitCRLFAux (l ++ ('\r' :: ('\n' :: rest))) acc =
      (acc.reverse ++ l) :: splitCRLFAux rest [] := by
  intro l
  induction l with
  | nil =>
    intro acc rest _
    simp [splitCRLFAux]
  | cons a l ih =>
    intro acc rest hr
    have ha : a ≠ '\r' := fun hcontra => hr (by simp [hcontra])
    have hl : '\r' ∉ l := fun hm => hr (List.mem_cons_of_mem a hm)
    rw [List.cons_append]
    cases hl2 : l ++ ('\r' :: ('\n' :: rest)) with
    | nil => simp at hl2
    | cons b r2 =>
      simp only [splitCRLFAux]
      rw [if_neg (fun hand => ha hand.1)]
      rw [← hl2, ih (a :: acc) rest hl]
      simp

lemma splitCRLF_join : ∀ (lines : List (List Char)), (∀ l ∈ lines, '\r' ∉ l) →
    splitCRLF (linesJoinCRLF lines) = lines ++ [[]] := by
  intro lines
  induction lines with
  | nil => intro _; rfl
  | cons l ls ih =>
    intro h
    show splitCRLFAux (l ++ ('\r' :: ('\n' :: linesJoinCRLF ls))) [] = (l :: ls) ++ [[]]
    rw [splitCRLFAux_app l [] (linesJoinCRLF ls) (h l (by simp))]
    rw [show splitCRLFAux (linesJoinCRLF ls) [] = splitCRLF (linesJoinCRLF ls) from rfl]
    rw [ih (fun m hm => h m (by simp [hm]))]
    simp

/-- C4 (counterexample): on the claim's own comma-separated input the
trigger-time parser yields the empty list, not `[1.25, 0.5]` — pyparsing
skips whitespace between the two `scinot` tokens but never commas, so both
lines fail to parse and are skipped. -/
theorem trig_comma_cex :
    trigParse (("1.000000e+00,2.500000e-01\r\n5.000000e-01,0.000000e+00\r\n").toList)
      = [] := by rfl

/-- C4 (amended): splitting on `"\r\n"`, each line that parses as two
consecutive `scinot` tokens (whitespace — not comma — between and before
them) contributes the sum of the two values, in line order; non-matching
lines are skipped. -/
theorem trig_lines_amended (lines : List (List Char))
    (h : ∀ l ∈ lines, '\r' ∉ l) :
    trigParse (linesJoinCRLF lines) = lines.filterMap lineSum := by
  have h0 : lineSum ([] : List Char) = none := rfl
  show (splitCRLF (linesJoinCRLF lines)).filterMap lineSum = lines.filterMap lineSum
  rw [splitCRLF_join lines h, List.filterMap_append]
  simp [h0]

/-- Witness for the amended C4: the whitespace-separated variant of the
claim's input yields `[1.25, 0.5]`. -/
theorem trig_lines_amended_w :
    (trigParse (linesJoinCRLF [("1.000000e+00 2.500000e-01").toList,
        ("5.000000e-01 0.000000e+00").toList])).map Dec.toRat
      = [(5 : ℚ) / 4, 1 / 2] := by
  rw [trig_lines_amended [("1.000000e+00 2.500000e-01").toList,
    ("5.000000e-01 0.000000e+00").toList] (by decide)]
  rw [show List.filterMap lineSum [("1.000000e+00 2.500000e-01").toList,
    ("5.000000e-01 0.000000e+00").toList] = [⟨125, 2⟩, ⟨5, 1⟩] from rfl]
  norm_num [Dec.toRat]

/-! ## `genTimeArrays`, second half, and the assembly code of `dataGrabber`

The source's descriptor stage contains several slips.  The `scinot` built
inside `genTimeArrays` (lines 132-134) carries *no* parse action — the
`float` action is set only on the separate copy inside `genTraceArrays` — so
`searchString(...)[0][0]` is the matched token *string*.  Line 151 applies
`float()` to it, which succeeds; line 155 applies `int()` directly to it,
and Python 2 `int()` of a float-formatted string such as `"2.000000e+01"`
raises ValueError, so the floor division at line 156 and the undefined names
`np` (line 160, `numpy` is imported under its full name) and `trigTimeList`
(line 161, the list built is `initialTimeValues`) are never reached;
`dataGrabber`'s own loop over the undefined `timArrays` (line 78) sits
behind all of that.  `genTimeArraysRaw` is the faithful model (it raises
ValueError at the line-155 step); `genTimeArraysIntended` is the same
computation with those three slips repaired as the docstring and spec
direct — everything else, including the unchecked floor division, is
exactly the source's code. -/

/-- A Python exception escaping the core. -/
inductive PyErr where
  | indexErr : PyErr
  | valueErr : PyErr
  | zeroDivErr : PyErr
  | nameErr : String → PyErr
deriving DecidableEq, Repr

/-- The `intermediateDict` handed from the query phase to the parsing phase
of `dataGrabber`: one descriptor body per channel, the TRIGTIME body, one
SIMPLE body per channel. -/
structure IntermediateDict where
  wavedesc : List (List Char)
  trigtime : List Char
  simple : List (List Char)

/-- Field name searched at `src/lc574alDataGrabber.py:150`. -/
def hiKey : List Char := ("HORIZ_INTERVAL").toList

/-- Field name searched at `src/lc574alDataGrabber.py:154`. -/
def wacKey : List Char := ("WAVE_ARRAY_COUNT").toList

/-- One scan position of `searchString` for
`Suppress(key) + Suppress(":") + scinot`.  The `scinot` in `genTimeArrays`
has no parse action, so the match's sole token is the matched *string*. -/
def keyMatchAt (key s : List Char) : Option (List Char) :=
  if isPre key s then
    match skipWS (s.drop key.length) with
    | ':' :: r2 =>
      match scinotParse (skipWS r2) with
      | none => none
      | some (t, _) => some t
    | _ => none
  else none

/-- `parser.searchString(body)[0][0]`: the token string at the first
position where the key parser matches; `none` models the IndexError on `[0]`
when there is no match anywhere. -/
def searchKey (key : List Char) : List Char → Option (List Char)
  | [] => none
  | c :: rest =>
    match keyMatchAt key (c :: rest) with
    | some v => some v
    | none => searchKey key rest

/-- Python 2 `int(s)` on a string: an optional sign followed by decimal
digits only; anything else — in particular a float-formatted literal with a
decimal point or an exponent, as every `scinot` token is — raises
ValueError.  (Surrounding whitespace, which a `scinot` token never
contains, is not modelled.) -/
def pyInt (s : List Char) : Except PyErr ℤ :=
  let p := stripSign s
  if p.2 ≠ [] ∧ p.2.all Char.isDigit = true then
    .ok (if p.1 then -(digitsToNat p.2 : ℤ) else (digitsToNat p.2 : ℤ))
  else .error .valueErr

/-- Python 2 `int(float(...))`: truncation toward zero of the exact value. -/
def intTrunc (d : Dec) : ℤ := d.m / (10 ^ d.k : ℤ)

/-- Ceiling of the integer ratio `p / q` (`q ≠ 0`), the sample count numpy
gives `arange`; 0 for `q = 0` (numpy would raise there — unreachable for the
inputs this model is applied to, where the step is a parsed interval). -/
def ceilRatio (p q : ℤ) : ℤ := if q = 0 then 0 else -((-p).fdiv q)

/-- `numpy.arange(0, stop, step)` over exact decimals:
`⌈stop/step⌉` samples `0, step, 2*step, ...`. -/
def arangeDec (stop step : Dec) : List Dec :=
  let n := ceilRatio (stop.m * 10 ^ step.k) (step.m * 10 ^ stop.k)
  (List.range n.toNat).map (fun i => Dec.mul ⟨(i : ℤ), 0⟩ step)

/-- Faithful model of `genTimeArrays` (`src/lc574alDataGrabber.py:121-164`):
trigger times from the TRIGTIME body; `HORIZ_INTERVAL` and
`WAVE_ARRAY_COUNT` tokens from the *first* channel's descriptor
(`intermediateDict["wavedesc"][0]` — IndexError when the list is empty or a
field is absent); `horizIntvl = float(token)` at line 151 succeeds, but
`waveArrayCount = int(token)` at line 155 applies Python 2 `int()` to the
float-formatted token string (the `scinot` here has no parse action) and
raises ValueError.  The floor division `waveArrayCount /
len(initialTimeValues)` at line 156 (ZeroDivisionError when no line parsed,
no remainder check) and the undefined names `np` at line 160 and
`trigTimeList` at line 161 sit behind it, unreachable for any descriptor
whose field values are `scinot` tokens. -/
def genTimeArraysRaw (d : IntermediateDict) : Except PyErr (List (List Dec)) :=
  let tvs := trigParse d.trigtime
  match d.wavedesc.head? with
  | none => .error .indexErr
  | some w0 =>
    match searchKey hiKey w0 with
    | none => .error .indexErr
    | some hiTok =>
      let _hi : Dec := sciVal hiTok
      match searchKey wacKey w0 with
      | none => .error .indexErr
      | some wacTok =>
        match pyInt wacTok with
        | .error e => .error e
        | .ok wac =>
          if tvs.length = 0 then .error .zeroDivErr
          else
            let _pts : ℤ := Int.fdiv wac (tvs.length : ℤ)
            .error (.nameErr ("np"))

/-- Modelled intent of `genTimeArrays`, with the source's three slips
repaired as its docstring and the spec direct: `int(token)` →
`int(float(token))` at line 155 (the spec's DescriptorParser reads
`WAVE_ARRAY_COUNT` as a numeric field of float format, parsed by the
numeric-token grammar), `np.arange` → `numpy.arange` at line 160, and
`trigTimeList` → `initialTimeValues` at line 161; every other step —
including the unchecked floor division `waveArrayCount /
len(initialTimeValues)` — is exactly the source's computation. -/
def genTimeArraysIntended (d : IntermediateDict) : Except PyErr (List (List Dec)) :=
  let tvs := trigParse d.trigtime
  match d.wavedesc.head? with
  | none => .error .indexErr
  | some w0 =>
    match searchKey hiKey w0 with
    | none => .error .indexErr
    | some hiTok =>
      let hi : Dec := sciVal hiTok
      match searchKey wacKey w0 with
      | none => .error .indexErr
      | some wacTok =>
        if tvs.length = 0 then .error .zeroDivErr
        else
          let pts : ℤ := Int.fdiv (intTrunc (sciVal wacTok)) (tvs.length : ℤ)
          let proto := arangeDec (Dec.mul ⟨pts, 0⟩ hi) hi
          .ok (tvs.map (fun t => proto.map (fun x => Dec.add x t)))

/-- A descriptor body carrying `HORIZ_INTERVAL: 0.1` and
`WAVE_ARRAY_COUNT: 20`. -/
def wd20 : List Char :=
  ("HORIZ_INTERVAL      : 1.000000e-01\r\nWAVE_ARRAY_COUNT    : 2.000000e+01\r\n").toList

/-- TRIGTIME body with two trigger times 0.0 and 0.25. -/
def trig2 : List Char :=
  ("0.000000e+00 0.000000e+00\r\n2.500000e-01 0.000000e+00\r\n").toList

/-- TRIGTIME body with three trigger times 0.0, 1.0 and 2.0. -/
def trig3 : List Char :=
  ("0.000000e+00 0.000000e+00\r\n1.000000e+00 0.000000e+00\r\n2.000000e+00 0.000000e+00\r\n").toList

/-- C5 (code bug): on a descriptor with interval 0.1 and count 20 and two
trigger times `[0.0, 0.25]`, the source `genTimeArrays` raises ValueError at
line 155 — `int()` applied to the token string `"2.000000e+01"` (the
`scinot` here has no parse action); the undefined names `np` and
`trigTimeList` wait behind that line.  The same computation with those three
slips repaired returns exactly the two 10-sample axes the claim states:
`[0.0, 0.1, ..., 0.9]` and `[0.25, 0.35, ..., 1.15]`. -/
theorem genTimeArrays_slips :
    genTimeArraysRaw ⟨[wd20], trig2, []⟩ = .error .valueErr ∧
    (genTimeArraysIntended ⟨[wd20], trig2, []⟩).map
        (fun axes => axes.map (fun ax => ax.map Dec.toRat))
      = .ok [[0, 1/10, 2/10, 3/10, 4/10, 5/10, 6/10, 7/10, 8/10, 9/10],
             [25/100, 35/100, 45/100, 55/100, 65/100, 75/100, 85/100,
              95/100, 105/100, 115/100]] := by
  constructor
  · rfl
  · rw [show genTimeArraysIntended ⟨[wd20], trig2, []⟩
        = .ok [[⟨0, 0⟩, ⟨1, 1⟩, ⟨2, 1⟩, ⟨3, 1⟩, ⟨4, 1⟩, ⟨5, 1⟩, ⟨6, 1⟩, ⟨7, 1⟩, ⟨8, 1⟩, ⟨9, 1⟩],
               [⟨25, 2⟩, ⟨35, 2⟩, ⟨45, 2⟩, ⟨55, 2⟩, ⟨65, 2⟩, ⟨75, 2⟩, ⟨85, 2⟩,
                ⟨95, 2⟩, ⟨105, 2⟩, ⟨115, 2⟩]] from rfl]
    norm_num [Dec.toRat, Except.map]

/-- C6 (code bug): with count 20 and three trigger times, 3 does not divide
20, yet nothing fails with any divisibility error: the faithful code raises
its unrelated ValueError at line 155 before the division is even reached,
and the repaired computation silently floors `20 / 3` to 6 and returns
three 6-sample axes — there is no `IndivisibleSampleCount` anywhere. -/
theorem genTime_truncating_division :
    (20 : ℤ) % 3 ≠ 0 ∧
    genTimeArraysRaw ⟨[wd20], trig3, []⟩ = .error .valueErr ∧
    genTimeArraysIntended ⟨[wd20], trig3, []⟩
      = .ok [[⟨0, 0⟩, ⟨1, 1⟩, ⟨2, 1⟩, ⟨3, 1⟩, ⟨4, 1⟩, ⟨5, 1⟩],
             [⟨1, 0⟩, ⟨11, 1⟩, ⟨12, 1⟩, ⟨13, 1⟩, ⟨14, 1⟩, ⟨15, 1⟩],
             [⟨2, 0⟩, ⟨21, 1⟩, ⟨22, 1⟩, ⟨23, 1⟩, ⟨24, 1⟩, ⟨25, 1⟩]] := by
  refine ⟨by decide, rfl, rfl⟩

/-- C10: the time axes depend only on the first channel's descriptor and the
trigger-time body: two intermediate dicts agreeing on `wavedesc[0]` and on
`trigtime` produce identical `genTimeArrays` results, however the
descriptors of channels 2-4 differ — both in the faithful model (whose
outcome, IndexError or the line-155 ValueError, is determined by
`wavedesc[0]` and the trigger body alone) and in the slip-repaired one that
actually produces axes (`HORIZ_INTERVAL` and `WAVE_ARRAY_COUNT` are read
only from `wavedesc[0]`). -/
theorem genTime_reads_only_first_wavedesc (d1 d2 : IntermediateDict)
    (hw : d1.wavedesc.head? = d2.wavedesc.head?) (ht : d1.trigtime = d2.trigtime) :
    genTimeArraysRaw d1 = genTimeArraysRaw d2 ∧
      genTimeArraysIntended d1 = genTimeArraysIntended d2 := by
  constructor
  · simp only [genTimeArraysRaw, hw, ht]
  · simp only [genTimeArraysIntended, hw, ht]

/-- Witness for C10: channels 2-4's descriptors differ arbitrarily, channel
1's descriptor and the trigger body agree — outputs coincide. -/
theorem genTime_reads_only_first_wavedesc_w :
    genTimeArraysRaw ⟨[wd20, ("B").toList, ("C").toList, ("D").toList], trig2, []⟩ =
        genTimeArraysRaw ⟨[wd20, ("X").toList, ("Y").toList, ("Z").toList], trig2, []⟩ ∧
      genTimeArraysIntended ⟨[wd20, ("B").toList, ("C").toList, ("D").toList], trig2, []⟩ =
        genTimeArraysIntended ⟨[wd20, ("X").toList, ("Y").toList, ("Z").toList], trig2, []⟩ :=
  genTime_reads_only_first_wavedesc _ _ rfl rfl

/-! ## `genTraceArrays` and the `simple` grammar -/

/-- `genTraceArrays` (`src/lc574alDataGrabber.py:167-183`) constructs the
`simple` grammar but never applies it to anything and has no `return`
statement, so in Python it returns `None` for every input — contradicting
its own docstring ("Return list containing all the trace data according to
trigger event."). -/
def genTraceArrays (_d : IntermediateDict) : Option (List (List Dec)) := none

/-- `pyparsing.Literal(lit)`, leading whitespace skipped, value suppressed. -/
def litTok (lit s : List Char) : Option (List Char) :=
  let s2 := skipWS s
  if isPre lit s2 then some (s2.drop lit.length) else none

/-- `pyparsing.Word(nums)`, leading whitespace skipped, value discarded. -/
def digitsTok (s : List Char) : Option (List Char) :=
  let s2 := skipWS s
  if (s2.takeWhile Char.isDigit).isEmpty then none else some (s2.dropWhile Char.isDigit)

/-- `scinot` with leading-whitespace skip and the `float` parse action
(`scinot.setParseAction(lambda tokens: float(tokens[0]))`). -/
def sciTok (s : List Char) : Option (Dec × List Char) :=
  match scinotParse (skipWS s) with
  | none => none
  | some (t, r) => some (sciVal t, r)

/-- Tail of `OneOrMore(scinot)`: keep matching while possible.  The fuel is
the input length; every successful match consumes at least one character. -/
def manySci : Nat → List Char → List Dec × List Char
  | 0, s => ([], s)
  | fuel + 1, s =>
    match sciTok s with
    | none => ([], s)
    | some (v, r) =>
      let p := manySci fuel r
      (v :: p.1, p.2)

/-- `block = Group(OneOrMore(scinot))`. -/
def blockTok (s : List Char) : Option (List Dec × List Char) :=
  match sciTok s with
  | none => none
  | some (v, r) =>
    let p := manySci r.length r
    some (v :: p.1, p.2)

/-- `segment = Suppress(Literal("Segment No") + digits)`. -/
def segTok (s : List Char) : Option (List Char) :=
  match litTok (("Segment No").toList) s with
  | none => none
  | some r => digitsTok r

/-- One `segment + block` unit. -/
def segBlock (s : List Char) : Option (List Dec × List Char) :=
  match segTok s with
  | none => none
  | some r => blockTok r

/-- Tail of `OneOrMore(segment + block)`. -/
def manySegs : Nat → List Char → List (List Dec) × List Char
  | 0, s => ([], s)
  | fuel + 1, s =>
    match segBlock s with
    | none => ([], s)
    | some (b, r) =>
      let p := manySegs fuel r
      (b :: p.1, p.2)

/-- The `simple` grammar (`src/lc574alDataGrabber.py:178-183`) under
`parseString` semantics: `Suppress(Literal("C") + digits + Literal(":INSP"))
+ Suppress(quote) + OneOrMore(segment + block) + Suppress(quote)`, trailing
input ignored. -/
def simpleParse (s : List Char) : Option (List (List Dec)) :=
  match litTok ['C'] s with
  | none => none
  | some r1 =>
    match digitsTok r1 with
    | none => none
    | some r2 =>
      match litTok ((":INSP").toList) r2 with
      | none => none
      | some r3 =>
        match litTok ['"'] r3 with
        | none => none
        | some r4 =>
          match segBlock r4 with
          | none => none
          | some (b1, r5) =>
            let p := manySegs r5.length r5
            match litTok ['"'] p.2 with
            | none => none
            | some _ => some (b1 :: p.1)

/-- C7 (code bug): `genTraceArrays` returns `None` on every input — the
grammar it builds is never applied — while that very grammar, applied to the
claim's input as the docstring intends, accepts it and yields exactly
`[[1.0, 2.0], [3.0, 4.0]]`. -/
theorem genTraceArrays_returns_none :
    (∀ d : IntermediateDict, genTraceArrays d = none) ∧
    (simpleParse (("C1:INSP \"Segment No1 1.0e+00 2.0e+00 Segment No2 3.0e+00 4.0e+00\"").toList)).map
        (fun bs => bs.map (fun b => b.map Dec.toRat))
      = some [[1, 2], [3, 4]] := by
  constructor
  · intro d; rfl
  · rw [show simpleParse
        (("C1:INSP \"Segment No1 1.0e+00 2.0e+00 Segment No2 3.0e+00 4.0e+00\"").toList)
        = some [[⟨1, 0⟩, ⟨2, 0⟩], [⟨3, 0⟩, ⟨4, 0⟩]] from rfl]
    norm_num [Dec.toRat, Option.map]

/-! ## Dataset assembly (`dataGrabber`, lines 64-79) -/

/-- The assembly tail of `dataGrabber`: `datObject["data"] =
genTraceArrays(...)` (which returns `None`), then `temArrays =
genTimeArrays(...)` (which raises ValueError at its line 155), then `for
indx, array in timArrays` over a name that was never assigned (the
assignment wrote `temArrays`) — unreachable behind the raise.  No step
compares the channels' segment counts, and no partial dataset is ever
produced, returned or written. -/
def assembleDataset (d : IntermediateDict) : Except PyErr (List (List Dec)) :=
  let _data := genTraceArrays d
  match genTimeArraysRaw d with
  | .error e => .error e
  | .ok _tem => .error (.nameErr ("timArrays"))

/-- A SIMPLE body with three segments. -/
def simple3 : List Char :=
  ("C1:INSP \"Segment No1 1.0e+00 Segment No2 2.0e+00 Segment No3 3.0e+00\"").toList

/-- A SIMPLE body with four segments. -/
def simple4 : List Char :=
  ("C2:INSP \"Segment No1 1.0e+00 Segment No2 2.0e+00 Segment No3 3.0e+00 Segment No4 4.0e+00\"").toList

/-- C8 (code bug): on an intermediate dict whose first channel reports 3
segments and second channel 4 (shown by the grammar itself), dataset
assembly fails — but with the ValueError of `int()` applied to the
`WAVE_ARRAY_COUNT` token string inside `genTimeArrays` (line 155), not with
any `SegmentCountMismatch`: the code contains no segment-count validation at
all (it never even reads the per-channel bodies) and produces no partial
dataset. -/
theorem assembly_no_mismatch_detection :
    (simpleParse simple3).map List.length = some 3 ∧
    (simpleParse simple4).map List.length = some 4 ∧
    assembleDataset ⟨[wd20], trig2, [simple3, simple4, simple3, simple3]⟩
      = .error .valueErr := ⟨rfl, rfl, rfl⟩

end LC574
